import Mathlib

/-!
# Verification of the `speller` pronunciation-tokenizer core

Shallow embedding of the repository's core components:

* `Tokenizer` (src/pronunciation_translator/tokenizers/tokenizer.py):
  character-level codec with fixed special tokens, `encode` / `decode`.
* `TokenizerBuilder` (src/pronunciation_translator/tokenizers/builder.py):
  character-vocabulary extraction, sorted by code point.
* `IPADictAdapter` (src/pronunciation_translator/data_adapters/ipa_dict_adapter.py):
  line parser and dataset loader for the tab-separated ipa-dict format.

Python strings are modelled as Lean `String` / `List Char` (one `Char` per
code point, matching Python's per-code-point iteration), Python dicts built
from `enumerate(vocab)` are modelled by last-index lookup (later entries of
a dict comprehension overwrite earlier ones), and fallible operations return
`Except` / `Option`.
-/

namespace Speller

/-- Index of the last occurrence of `s` in `l`, if any.  Models lookup in
the Python dict `{char: idx for idx, char in enumerate(vocab)}`, where a
later index overwrites an earlier one for a duplicated key. -/
def lastIdxOf (l : List String) (s : String) : Option Nat :=
  match l with
  | [] => none
  | x :: xs =>
    match lastIdxOf xs s with
    | some j => some (j + 1)
    | none => if x = s then some 0 else none

/-- The four special-token strings of a persisted vocabulary.
Mirrors the `special_tokens` JSON object. -/
structure SpecialTokens where
  pad : String
  sos : String
  eos : String
  unk : String
  deriving DecidableEq, Repr

/-- The default special tokens, used by `Tokenizer.__init__` when the
persisted structure has no `special_tokens` field, and written by the
builder's `save`. -/
def defaultSpecialTokens : SpecialTokens :=
  ⟨"<PAD>", "<SOS>", "<EOS>", "<UNK>"⟩

/-- Runtime state of a constructed `Tokenizer`: `vocab` is the full
vocabulary list `[pad, sos, eos, unk] ++ symbols`, exactly as
`Tokenizer.__init__` builds `self.vocab`. -/
structure Tokenizer where
  language : String
  modality : String
  specialTokens : SpecialTokens
  vocab : List String
  deriving DecidableEq, Repr

/-- The vocabulary-assembly part of `Tokenizer.__init__`: special tokens
first (pad, sos, eos, unk in that order), then the persisted symbols. -/
def Tokenizer.ofVocab (language modality : String) (st : SpecialTokens)
    (symbols : List String) : Tokenizer :=
  ⟨language, modality, st, [st.pad, st.sos, st.eos, st.unk] ++ symbols⟩

/-- `self.char_to_id.get(s)`: last index of `s` in the full vocabulary
(dict comprehension overwrites duplicates with the later index). -/
def Tokenizer.charToId (t : Tokenizer) (s : String) : Option Nat :=
  lastIdxOf t.vocab s

/-- `self.id_to_char.get(i)`: the vocabulary entry at index `i` (indices in
`enumerate` are distinct, so the dict is plain positional indexing). -/
def Tokenizer.idToChar (t : Tokenizer) (i : Nat) : Option String :=
  t.vocab[i]?

/-- `self.pad_id = self.char_to_id[self.special_tokens["pad"]]` (the key is
always present because the pad string was appended to the vocabulary). -/
def Tokenizer.padId (t : Tokenizer) : Nat :=
  (t.charToId t.specialTokens.pad).getD 0

def Tokenizer.sosId (t : Tokenizer) : Nat :=
  (t.charToId t.specialTokens.sos).getD 0

def Tokenizer.eosId (t : Tokenizer) : Nat :=
  (t.charToId t.specialTokens.eos).getD 0

def Tokenizer.unkId (t : Tokenizer) : Nat :=
  (t.charToId t.specialTokens.unk).getD 0

def Tokenizer.vocabSize (t : Tokenizer) : Nat :=
  t.vocab.length

/-- `Tokenizer.encode`: optional sos id, one id per character of the text
(`char_to_id.get(char, unk_id)`; a character is looked up as its singleton
string, since Python string iteration yields length-1 strings), optional
eos id. -/
def Tokenizer.encode (t : Tokenizer) (text : String)
    (addSpecialTokens : Bool) : List Nat :=
  (if addSpecialTokens then [t.sosId] else []) ++
    text.data.map (fun c => (t.charToId (String.mk [c])).getD t.unkId) ++
    (if addSpecialTokens then [t.eosId] else [])

/-- `Tokenizer.decode`: when `skip_special_tokens` is set, ids equal to
`pad_id`, `sos_id` or `eos_id` are dropped; every remaining id is mapped
through `id_to_char.get(token_id, special_tokens["unk"])` and the pieces
are joined. -/
def Tokenizer.decode (t : Tokenizer) (ids : List Nat)
    (skipSpecialTokens : Bool) : String :=
  let kept := ids.filter
    (fun i => !(skipSpecialTokens &&
      (i == t.padId || i == t.sosId || i == t.eosId)))
  String.mk ((kept.map
    (fun i => ((t.idToChar i).getD t.specialTokens.unk).data)).flatten)

/-- `special_tokens` object as persisted: any of the four entries may be
missing from the JSON. -/
structure SpecialTokensOpt where
  pad : Option String
  sos : Option String
  eos : Option String
  unk : Option String
  deriving DecidableEq, Repr

/-- Persisted tokenizer JSON: each field may be absent. -/
structure TokenizerConfig where
  language : Option String
  modality : Option String
  vocab : Option (List String)
  special_tokens : Option SpecialTokensOpt
  deriving DecidableEq, Repr

/-- Failure modes of `Tokenizer.__init__`: `FileNotFoundError` when the
path does not exist, `KeyError` when a required key is missing from the
loaded JSON. -/
inductive TokenizerLoadError
  | fileNotFound
  | keyError (key : String)
  deriving DecidableEq, Repr

/-- `Tokenizer.__init__`.  The persisted source is `none` when the file
does not exist.  `language` and `modality` default to `"unknown"`; a
missing `special_tokens` object falls back to the default four tokens via
`config.get("special_tokens", {...})`; but when the object is present, each
of its four entries is read with `[...]` indexing (KeyError if absent, pad
first, then sos, eos, unk), and `config["vocab"]` likewise raises KeyError
when absent. -/
def loadTokenizer (src : Option TokenizerConfig) :
    Except TokenizerLoadError Tokenizer :=
  match src with
  | none => .error .fileNotFound
  | some config =>
    let st := config.special_tokens.getD
      ⟨some defaultSpecialTokens.pad, some defaultSpecialTokens.sos,
       some defaultSpecialTokens.eos, some defaultSpecialTokens.unk⟩
    match st.pad with
    | none => .error (.keyError "pad")
    | some pad =>
      match st.sos with
      | none => .error (.keyError "sos")
      | some sos =>
        match st.eos with
        | none => .error (.keyError "eos")
        | some eos =>
          match st.unk with
          | none => .error (.keyError "unk")
          | some unk =>
            match config.vocab with
            | none => .error (.keyError "vocab")
            | some symbols =>
              .ok (Tokenizer.ofVocab (config.language.getD "unknown")
                (config.modality.getD "unknown") ⟨pad, sos, eos, unk⟩ symbols)

/-! ## Vocabulary builder (`TokenizerBuilder`) -/

/-- The character-collection loop of `build_from_text_list`: every
character of every truthy (non-empty) string is added to `char_set`.  The
Python `set` is modelled as a deduplicated list; only its member set
matters, since the result is sorted before being stored. -/
def charsOfTexts (texts : List String) : List Char :=
  (texts.foldl
    (fun acc t => if t = "" then acc else acc ++ t.data) []).dedup

/-- The character-collection loop of `build_from_data` over one column:
`None` entries and empty strings are skipped (`if text:`). -/
def charsOfColumn (column : List (Option String)) : List Char :=
  (column.foldl
    (fun acc t? =>
      match t? with
      | none => acc
      | some t => if t = "" then acc else acc ++ t.data) []).dedup

/-- `self.vocab = sorted(list(char_set))`: Python sorts length-1 strings
lexicographically, i.e. by code point, which is exactly `Char`'s order. -/
def sortedVocab (chars : List Char) : List Char :=
  chars.insertionSort (· ≤ ·)

/-- Vocabulary produced by `build_from_text_list(texts)`. -/
def vocabOfTexts (texts : List String) : List Char :=
  sortedVocab (charsOfTexts texts)

/-- Vocabulary produced by `build_from_data(data, column)` for the given
column contents. -/
def vocabOfColumn (column : List (Option String)) : List Char :=
  sortedVocab (charsOfColumn column)

/-- `TokenizerBuilder` state: language, modality and the current (regular)
vocabulary; special tokens are the fixed defaults. -/
structure TokenizerBuilder where
  language : String
  modality : String
  vocab : List Char
  deriving DecidableEq, Repr

/-- `TokenizerBuilder.__init__`: rejects any modality other than
`'spelling'` or `'ipa'` (ValueError), and starts with an empty
vocabulary. -/
def mkTokenizerBuilder (language modality : String) :
    Except String TokenizerBuilder :=
  if modality = "spelling" ∨ modality = "ipa" then
    .ok ⟨language, modality, []⟩
  else
    .error "Modality must be spelling or ipa"

/-- `build_from_text_list`: overwrites `self.vocab` with the characters of
`texts` and returns self. -/
def TokenizerBuilder.buildFromTextList (b : TokenizerBuilder)
    (texts : List String) : TokenizerBuilder :=
  { b with vocab := vocabOfTexts texts }

/-- `build_from_data`, applied to the contents of the selected column
(column-existence checking is a DataFrame concern left outside the model):
overwrites `self.vocab` with the characters of the column. -/
def TokenizerBuilder.buildFromData (b : TokenizerBuilder)
    (column : List (Option String)) : TokenizerBuilder :=
  { b with vocab := vocabOfColumn column }

/-! ## ipa-dict adapter (`IPADictAdapter`) -/

/-- Python `str.strip()` with no argument: remove leading and trailing
whitespace. -/
def trimChars (l : List Char) : List Char :=
  ((l.dropWhile Char.isWhitespace).reverse.dropWhile
    Char.isWhitespace).reverse

/-- Python `line.split('\t')`: split on every tab, keeping empty parts;
the empty string yields `[""]`. -/
def splitTab : List Char → List (List Char)
  | [] => [[]]
  | c :: rest =>
    if c = '\t' then [] :: splitTab rest
    else
      match splitTab rest with
      | [] => [[c]]
      | p :: ps => (c :: p) :: ps

/-- One-pass scanner for `re.findall(r'/([^/]+)/', s)`.  The state is
`none` outside a candidate span, and `some buf` (the reversed content
collected so far) after an opening slash.  A slash seen with a non-empty
buffer closes the span (the match is emitted and scanning resumes after
the closing slash); a slash seen with an empty buffer means the previous
slash could not start a match (`//`), so the engine advances and the new
slash becomes the opening one; an unclosed span at the end of input emits
nothing — exactly the leftmost, non-overlapping semantics of the
pattern. -/
def findallAux (state : Option (List Char)) :
    List Char → List (List Char)
  | [] => []
  | c :: rest =>
    match state with
    | none =>
      if c = '/' then findallAux (some []) rest
      else findallAux none rest
    | some buf =>
      if c = '/' then
        if buf.isEmpty then findallAux (some []) rest
        else buf.reverse :: findallAux none rest
      else findallAux (some (c :: buf)) rest

/-- `re.findall(r'/([^/]+)/', s)`: the contents of the slash-delimited
spans of `s`, in order. -/
def findallSlash (l : List Char) : List (List Char) :=
  findallAux none l

/-- `_parse_ipa_pronunciations`: strip the raw field, find all
slash-delimited spans, return the last one stripped, or the empty string
when there is none. -/
def parseIpaPronunciations (ipaString : List Char) : List Char :=
  match (findallSlash (trimChars ipaString)).getLast? with
  | some m => trimChars m
  | none => []

/-- One row of the loaded DataFrame: word, ipa and language fields. -/
structure Record where
  word : String
  ipa : String
  language : String
  deriving DecidableEq, Repr

/-- The per-line body of `load_data`'s loop: strip the line; skip it when
blank; split on tab and skip unless exactly two parts; parse the
pronunciation field and skip when no usable pronunciation results;
otherwise emit one record with the stripped word.  Skipping is `none` —
no exception ever escapes a line. -/
def parseLine (language : String) (rawLine : String) : Option Record :=
  let line := trimChars rawLine.data
  if line.isEmpty then none
  else
    match splitTab line with
    | [word, ipaString] =>
      let ipa := parseIpaPronunciations ipaString
      if ipa.isEmpty then none
      else some ⟨String.mk (trimChars word), String.mk ipa, language⟩
    | _ => none

/-- `_extract_language_code`: the explicit override wins whenever it is
truthy (a non-empty string) — in every mode — otherwise the file's stem is
used. -/
def extractLanguageCode (override : Option String) (stem : String) :
    String :=
  match override with
  | some code => if code = "" then stem else code
  | none => stem

/-- The data source seen by `load_data`: a missing path, a single file
(stem and lines), or a directory (each entry a matched `*.txt` file's stem
and lines, in discovery order). -/
inductive Source
  | missing
  | file (stem : String) (lines : List String)
  | dir (files : List (String × List String))
  deriving DecidableEq, Repr

/-- Failure modes of `load_data`: `FileNotFoundError` for a missing path,
`ValueError` for a directory with no `*.txt` files, and `ValueError` for
an empty overall result. -/
inductive LoadError
  | pathNotFound
  | noTxtFiles
  | noValidRows
  deriving DecidableEq, Repr

/-- Rows contributed by one file: each line through `parseLine`, with the
language resolved from the override and the file's stem. -/
def fileRows (override : Option String) (stem : String)
    (lines : List String) : List Record :=
  lines.filterMap (parseLine (extractLanguageCode override stem))

/-- `load_data`: fails on a missing path; in directory mode fails when no
files matched; aggregates rows file-by-file, line-by-line; fails when the
aggregate is empty. -/
def loadData (override : Option String) (src : Source) :
    Except LoadError (List Record) :=
  match src with
  | .missing => .error .pathNotFound
  | .file stem lines =>
    let rows := fileRows override stem lines
    if rows.isEmpty then .error .noValidRows else .ok rows
  | .dir files =>
    if files.isEmpty then .error .noTxtFiles
    else
      let rows := files.flatMap (fun fl => fileRows override fl.1 fl.2)
      if rows.isEmpty then .error .noValidRows else .ok rows

/-- The aggregate record collection a load would parse out of a source
(the `data_rows` accumulator of `load_data` just before the final
emptiness check). -/
def usableRows (override : Option String) (src : Source) : List Record :=
  match src with
  | .missing => []
  | .file stem lines => fileRows override stem lines
  | .dir files => files.flatMap (fun fl => fileRows override fl.1 fl.2)

/-! ## Lemmas about last-index lookup -/

theorem lastIdxOf_get {l : List String} {s : String} {i : Nat}
    (h : lastIdxOf l s = some i) : l[i]? = some s := by
  induction l generalizing i with
  | nil => simp [lastIdxOf] at h
  | cons x xs ih =>
    simp only [lastIdxOf] at h
    cases hx : lastIdxOf xs s with
    | some j =>
      rw [hx] at h
      cases h
      simpa using ih hx
    | none =>
      rw [hx] at h
      by_cases hxs : x = s
      · simp [hxs] at h
        cases h
        simp [hxs]
      · simp [hxs] at h

theorem lastIdxOf_eq_none_of_not_mem {l : List String} {s : String}
    (h : s ∉ l) : lastIdxOf l s = none := by
  induction l with
  | nil => rfl
  | cons x xs ih =>
    simp only [List.mem_cons, not_or] at h
    simp [lastIdxOf, ih h.2, Ne.symm h.1]

theorem lastIdxOf_isSome_of_mem {l : List String} {s : String}
    (h : s ∈ l) : ∃ i, lastIdxOf l s = some i := by
  induction l with
  | nil => simp at h
  | cons x xs ih =>
    simp only [lastIdxOf]
    cases hx : lastIdxOf xs s with
    | some j => exact ⟨j + 1, rfl⟩
    | none =>
      rcases List.mem_cons.mp h with h1 | h2
      · exact ⟨0, by simp [h1.symm]⟩
      · rcases ih h2 with ⟨i, hi⟩
        rw [hi] at hx
        cases hx

/-! ## Lemmas about the codec tables -/

theorem charToId_of_mem {t : Tokenizer} {s : String}
    (h : s ∈ t.vocab) : ∃ i, t.charToId s = some i :=
  lastIdxOf_isSome_of_mem h

/-- A successful `char_to_id` lookup points back at its key in the full
vocabulary: looked-up value `i` satisfies `vocab[i] = s`. -/
theorem charToId_get {t : Tokenizer} {s : String} {i : Nat}
    (h : t.charToId s = some i) : t.vocab[i]? = some s :=
  lastIdxOf_get h

/-- Two successful lookups of different keys give different ids. -/
theorem charToId_ne {t : Tokenizer} {a b : String} {i j : Nat}
    (ha : t.charToId a = some i) (hb : t.charToId b = some j)
    (hne : a ≠ b) : i ≠ j := by
  intro hij
  subst hij
  have h1 := charToId_get ha
  have h2 := charToId_get hb
  rw [h1] at h2
  exact hne (Option.some.inj h2)

theorem length_mk_singleton (c : Char) : (String.mk [c]).length = 1 := rfl

/-- A singleton string is never one of the default special-token strings
(they all have length 5). -/
theorem singleton_ne_default (c : Char) :
    String.mk [c] ≠ "<PAD>" ∧ String.mk [c] ≠ "<SOS>" ∧
      String.mk [c] ≠ "<EOS>" ∧ String.mk [c] ≠ "<UNK>" := by
  refine ⟨?_, ?_, ?_, ?_⟩ <;>
    · intro h
      have := congrArg String.length h
      rw [length_mk_singleton] at this
      exact absurd this (by decide)

/-- A string of length other than one is not in a vocabulary all of whose
symbols are single characters. -/
theorem not_mem_of_singleChar {vs : List String}
    (hlen : ∀ s ∈ vs, s.length = 1) {tok : String}
    (htok : tok.length ≠ 1) : tok ∉ vs := by
  intro hmem
  exact htok (hlen tok hmem)

/-- In a tokenizer built from default special tokens and single-character
symbols, the special-token ids are positionally 0, 1, 2, 3. -/
theorem specialIds_ofVocab (lang mod : String) (vs : List String)
    (hlen : ∀ s ∈ vs, s.length = 1) :
    (Tokenizer.ofVocab lang mod defaultSpecialTokens vs).padId = 0 ∧
      (Tokenizer.ofVocab lang mod defaultSpecialTokens vs).sosId = 1 ∧
      (Tokenizer.ofVocab lang mod defaultSpecialTokens vs).eosId = 2 ∧
      (Tokenizer.ofVocab lang mod defaultSpecialTokens vs).unkId = 3 := by
  have hP : lastIdxOf vs "<PAD>" = none :=
    lastIdxOf_eq_none_of_not_mem (not_mem_of_singleChar hlen (by decide))
  have hS : lastIdxOf vs "<SOS>" = none :=
    lastIdxOf_eq_none_of_not_mem (not_mem_of_singleChar hlen (by decide))
  have hE : lastIdxOf vs "<EOS>" = none :=
    lastIdxOf_eq_none_of_not_mem (not_mem_of_singleChar hlen (by decide))
  have hU : lastIdxOf vs "<UNK>" = none :=
    lastIdxOf_eq_none_of_not_mem (not_mem_of_singleChar hlen (by decide))
  refine ⟨?_, ?_, ?_, ?_⟩ <;>
    simp [Tokenizer.padId, Tokenizer.sosId, Tokenizer.eosId,
      Tokenizer.unkId, Tokenizer.charToId, Tokenizer.ofVocab,
      defaultSpecialTokens, lastIdxOf, hP, hS, hE, hU]

theorem pad_mem_vocab (lang mod : String) (st : SpecialTokens)
    (vs : List String) :
    st.pad ∈ (Tokenizer.ofVocab lang mod st vs).vocab := by
  simp [Tokenizer.ofVocab]

theorem sos_mem_vocab (lang mod : String) (st : SpecialTokens)
    (vs : List String) :
    st.sos ∈ (Tokenizer.ofVocab lang mod st vs).vocab := by
  simp [Tokenizer.ofVocab]

theorem eos_mem_vocab (lang mod : String) (st : SpecialTokens)
    (vs : List String) :
    st.eos ∈ (Tokenizer.ofVocab lang mod st vs).vocab := by
  simp [Tokenizer.ofVocab]

theorem padId_lookup {t : Tokenizer} (h : t.specialTokens.pad ∈ t.vocab) :
    t.charToId t.specialTokens.pad = some t.padId := by
  obtain ⟨i, hi⟩ := charToId_of_mem h
  simp [Tokenizer.padId, hi]

theorem sosId_lookup {t : Tokenizer} (h : t.specialTokens.sos ∈ t.vocab) :
    t.charToId t.specialTokens.sos = some t.sosId := by
  obtain ⟨i, hi⟩ := charToId_of_mem h
  simp [Tokenizer.sosId, hi]

theorem eosId_lookup {t : Tokenizer} (h : t.specialTokens.eos ∈ t.vocab) :
    t.charToId t.specialTokens.eos = some t.eosId := by
  obtain ⟨i, hi⟩ := charToId_of_mem h
  simp [Tokenizer.eosId, hi]

/-- In a tokenizer with the default special tokens, the id of a
vocabulary character never collides with the pad, sos or eos id: those ids
resolve to length-5 strings while a character key is a length-1 string. -/
theorem encodeChar_spec {lang mod : String} {vs : List String} {c : Char}
    (h : String.mk [c] ∈
      (Tokenizer.ofVocab lang mod defaultSpecialTokens vs).vocab) :
    ∃ i, (Tokenizer.ofVocab lang mod defaultSpecialTokens vs).charToId
        (String.mk [c]) = some i ∧
      (Tokenizer.ofVocab lang mod defaultSpecialTokens vs).vocab[i]? =
        some (String.mk [c]) ∧
      i ≠ (Tokenizer.ofVocab lang mod defaultSpecialTokens vs).padId ∧
      i ≠ (Tokenizer.ofVocab lang mod defaultSpecialTokens vs).sosId ∧
      i ≠ (Tokenizer.ofVocab lang mod defaultSpecialTokens vs).eosId := by
  set t := Tokenizer.ofVocab lang mod defaultSpecialTokens vs with ht
  obtain ⟨i, hi⟩ := charToId_of_mem h
  have hpad := padId_lookup (t := t) (pad_mem_vocab lang mod _ vs)
  have hsos := sosId_lookup (t := t) (sos_mem_vocab lang mod _ vs)
  have heos := eosId_lookup (t := t) (eos_mem_vocab lang mod _ vs)
  obtain ⟨hne1, hne2, hne3, _⟩ := singleton_ne_default c
  refine ⟨i, hi, charToId_get hi, ?_, ?_, ?_⟩
  · exact charToId_ne hi hpad hne1
  · exact charToId_ne hi hsos hne2
  · exact charToId_ne hi heos hne3

theorem flatten_map_eq_self {α : Type} {l : List α} {f : α → List α}
    (h : ∀ c ∈ l, f c = [c]) : (l.map f).flatten = l := by
  induction l with
  | nil => rfl
  | cons x xs ih =>
    simp only [List.map_cons, List.flatten_cons, h x (List.mem_cons_self x xs)]
    rw [ih (fun c hc => h c (List.mem_cons_of_mem x hc))]
    rfl

theorem decode_noskip (t : Tokenizer) (ids : List Nat) :
    t.decode ids false = String.mk ((ids.map
      (fun i => ((t.idToChar i).getD t.specialTokens.unk).data)).flatten) := by
  simp [Tokenizer.decode]

theorem decode_skip_filter (t : Tokenizer) (ids : List Nat) :
    t.decode ids true = t.decode (ids.filter
      (fun i => !(i == t.padId || i == t.sosId || i == t.eosId))) false := by
  simp [Tokenizer.decode]

/-- Decoding an encoded in-vocabulary character recovers exactly that
character. -/
theorem decode_of_encodeChar {lang mod : String} {vs : List String}
    {c : Char}
    (h : String.mk [c] ∈
      (Tokenizer.ofVocab lang mod defaultSpecialTokens vs).vocab) :
    (((Tokenizer.ofVocab lang mod defaultSpecialTokens vs).idToChar
        (((Tokenizer.ofVocab lang mod defaultSpecialTokens vs).charToId
          (String.mk [c])).getD
            (Tokenizer.ofVocab lang mod defaultSpecialTokens vs).unkId)).getD
      (Tokenizer.ofVocab lang mod defaultSpecialTokens
        vs).specialTokens.unk).data = [c] := by
  obtain ⟨i, hi, hget, _, _, _⟩ := encodeChar_spec h
  rw [hi]
  simp only [Option.getD_some, Tokenizer.idToChar, hget]

/-! ## Claim theorems -/

/-- C1: for every string `s` whose characters all appear in the codec's
character-to-id mapping, `decode(encode(s, addSpecialTokens := false),
skipSpecialTokens := false) = s` exactly, and
`decode(encode(s, addSpecialTokens := true), skipSpecialTokens := true)
= s`, for any tokenizer built over the persisted format's default special
tokens. -/
theorem C1_round_trip (lang mod : String) (vs : List String) (s : String)
    (h : ∀ c ∈ s.data, String.mk [c] ∈
      (Tokenizer.ofVocab lang mod defaultSpecialTokens vs).vocab) :
    (Tokenizer.ofVocab lang mod defaultSpecialTokens vs).decode
        ((Tokenizer.ofVocab lang mod defaultSpecialTokens vs).encode s false)
        false = s ∧
      (Tokenizer.ofVocab lang mod defaultSpecialTokens vs).decode
        ((Tokenizer.ofVocab lang mod defaultSpecialTokens vs).encode s true)
        true = s := by
  set t := Tokenizer.ofVocab lang mod defaultSpecialTokens vs with ht
  have hencf : t.encode s false =
      s.data.map (fun c => (t.charToId (String.mk [c])).getD t.unkId) := by
    simp [Tokenizer.encode]
  have part1 : t.decode (t.encode s false) false = s := by
    rw [hencf, decode_noskip, List.map_map]
    have hpoint : ∀ c ∈ s.data,
        ((fun i => ((t.idToChar i).getD t.specialTokens.unk).data) ∘
          fun c => (t.charToId (String.mk [c])).getD t.unkId) c = [c] := by
      intro c hc
      exact decode_of_encodeChar (h c hc)
    rw [flatten_map_eq_self hpoint]
  have henct : t.encode s true =
      [t.sosId] ++ s.data.map
        (fun c => (t.charToId (String.mk [c])).getD t.unkId)
        ++ [t.eosId] := by
    simp [Tokenizer.encode]
  have hfilter : (t.encode s true).filter
      (fun i => !(i == t.padId || i == t.sosId || i == t.eosId)) =
      t.encode s false := by
    rw [henct, hencf]
    rw [List.filter_append, List.filter_append]
    have h1 : ([t.sosId].filter
        (fun i => !(i == t.padId || i == t.sosId || i == t.eosId))) = [] := by
      simp
    have h3 : ([t.eosId].filter
        (fun i => !(i == t.padId || i == t.sosId || i == t.eosId))) = [] := by
      simp
    have h2 : ((s.data.map
        (fun c => (t.charToId (String.mk [c])).getD t.unkId)).filter
        (fun i => !(i == t.padId || i == t.sosId || i == t.eosId))) =
        s.data.map (fun c => (t.charToId (String.mk [c])).getD t.unkId) := by
      rw [List.filter_eq_self]
      intro a ha
      obtain ⟨c, hc, hfc⟩ := List.mem_map.mp ha
      obtain ⟨i, hi, _, hp, hs2, he⟩ := encodeChar_spec (h c hc)
      rw [← hfc, hi]
      simp [hp, hs2, he]
    rw [h1, h2, h3]
    simp
  refine ⟨part1, ?_⟩
  rw [decode_skip_filter, hfilter, part1]

/-- Witness for C1 at the concrete vocabulary `["a", "b"]` and string
`"ab"`. -/
theorem C1_round_trip_witness :
    (Tokenizer.ofVocab "de" "spelling" defaultSpecialTokens
        ["a", "b"]).decode
        ((Tokenizer.ofVocab "de" "spelling" defaultSpecialTokens
          ["a", "b"]).encode "ab" false) false = "ab" ∧
      (Tokenizer.ofVocab "de" "spelling" defaultSpecialTokens
        ["a", "b"]).decode
        ((Tokenizer.ofVocab "de" "spelling" defaultSpecialTokens
          ["a", "b"]).encode "ab" true) true = "ab" :=
  C1_round_trip "de" "spelling" ["a", "b"] "ab" (by decide)

/-- C2: for every tokenizer constructed from a persisted vocabulary whose
symbols are distinct single characters (with the persisted format's
default special tokens), the special ids are `pad = 0`, `sos = 1`,
`eos = 2`, `unk = 3` regardless of the symbol set, and
`encode("", addSpecialTokens := true) = [1, 2]`. -/
theorem C2_special_token_ids (lang mod : String) (vs : List String)
    (hlen : ∀ s ∈ vs, s.length = 1) (hnd : vs.Nodup) :
    (Tokenizer.ofVocab lang mod defaultSpecialTokens vs).padId = 0 ∧
      (Tokenizer.ofVocab lang mod defaultSpecialTokens vs).sosId = 1 ∧
      (Tokenizer.ofVocab lang mod defaultSpecialTokens vs).eosId = 2 ∧
      (Tokenizer.ofVocab lang mod defaultSpecialTokens vs).unkId = 3 ∧
      (Tokenizer.ofVocab lang mod defaultSpecialTokens vs).encode "" true =
        [1, 2] := by
  obtain ⟨hp, hs, he, hu⟩ := specialIds_ofVocab lang mod vs hlen
  refine ⟨hp, hs, he, hu, ?_⟩
  simp [Tokenizer.encode, hs, he]

/-- Witness for C2 at the concrete vocabulary `["b", "a"]`. -/
theorem C2_special_token_ids_witness :
    (Tokenizer.ofVocab "de" "spelling" defaultSpecialTokens
        ["b", "a"]).padId = 0 ∧
      (Tokenizer.ofVocab "de" "spelling" defaultSpecialTokens
        ["b", "a"]).sosId = 1 ∧
      (Tokenizer.ofVocab "de" "spelling" defaultSpecialTokens
        ["b", "a"]).eosId = 2 ∧
      (Tokenizer.ofVocab "de" "spelling" defaultSpecialTokens
        ["b", "a"]).unkId = 3 ∧
      (Tokenizer.ofVocab "de" "spelling" defaultSpecialTokens
        ["b", "a"]).encode "" true = [1, 2] :=
  C2_special_token_ids "de" "spelling" ["b", "a"] (by decide) (by decide)

theorem decode_append (t : Tokenizer) (skip : Bool) (a b : List Nat) :
    t.decode (a ++ b) skip = t.decode a skip ++ t.decode b skip := by
  show _ = String.mk _ ++ String.mk _
  simp only [Tokenizer.decode, List.filter_append, List.map_append,
    List.flatten_append]
  rfl

/-- C4: `encode` maps every character absent from the character-to-id
mapping to the unk id 3; `decode` maps every id outside the id-to-character
mapping to the literal `"<UNK>"`; and with `skipSpecialTokens := true`,
`decode` drops exactly the pad/sos/eos ids while an unk id always renders
the `"<UNK>"` placeholder at its position. -/
theorem C4_unknown_handling (lang mod : String) (vs : List String)
    (hlen : ∀ x ∈ vs, x.length = 1) :
    (Tokenizer.ofVocab lang mod defaultSpecialTokens vs).unkId = 3 ∧
    (∀ (s : String) (j : Nat) (c : Char), s.data[j]? = some c →
      String.mk [c] ∉
        (Tokenizer.ofVocab lang mod defaultSpecialTokens vs).vocab →
      ((Tokenizer.ofVocab lang mod defaultSpecialTokens vs).encode
        s false)[j]? = some 3) ∧
    (∀ i, (Tokenizer.ofVocab lang mod
        defaultSpecialTokens vs).vocab.length ≤ i →
      (Tokenizer.ofVocab lang mod defaultSpecialTokens vs).decode [i] false =
        "<UNK>") ∧
    (∀ ids, (Tokenizer.ofVocab lang mod defaultSpecialTokens vs).decode
        ids true =
      (Tokenizer.ofVocab lang mod defaultSpecialTokens vs).decode
        (ids.filter (fun i =>
          !(i == (Tokenizer.ofVocab lang mod
              defaultSpecialTokens vs).padId ||
            i == (Tokenizer.ofVocab lang mod
              defaultSpecialTokens vs).sosId ||
            i == (Tokenizer.ofVocab lang mod
              defaultSpecialTokens vs).eosId))) false) ∧
    (∀ pre post : List Nat,
      (Tokenizer.ofVocab lang mod defaultSpecialTokens vs).decode
          (pre ++ 3 :: post) true =
        (Tokenizer.ofVocab lang mod defaultSpecialTokens vs).decode
          pre true ++ "<UNK>" ++
        (Tokenizer.ofVocab lang mod defaultSpecialTokens vs).decode
          post true) := by
  obtain ⟨hp, hs, he, hu⟩ := specialIds_ofVocab lang mod vs hlen
  set t := Tokenizer.ofVocab lang mod defaultSpecialTokens vs with ht
  refine ⟨hu, ?_, ?_, ?_, ?_⟩
  · intro s j c hj hnot
    have hnone : t.charToId (String.mk [c]) = none :=
      lastIdxOf_eq_none_of_not_mem hnot
    have hencf : t.encode s false =
        s.data.map (fun c => (t.charToId (String.mk [c])).getD t.unkId) := by
      simp [Tokenizer.encode]
    rw [hencf, List.getElem?_map, hj]
    simp [hnone, hu]
  · intro i hi
    have hnone : t.idToChar i = none := by
      simp [Tokenizer.idToChar, List.getElem?_eq_none hi]
    rw [decode_noskip]
    simp [hnone]
    rfl
  · intro ids
    exact decode_skip_filter t ids
  · intro pre post
    have hsplit : pre ++ 3 :: post = pre ++ [3] ++ post := by simp
    rw [hsplit, decode_append, decode_append]
    have h3 : t.decode [3] true = "<UNK>" := by
      simp only [Tokenizer.decode, List.filter_cons, List.filter_nil]
      rw [hp, hs, he]
      simp only [Tokenizer.idToChar]
      have hv : t.vocab[3]? = some "<UNK>" := by
        simp [ht, Tokenizer.ofVocab, defaultSpecialTokens]
      simp [hv]
    rw [h3]

/-- Witness for C4 at the concrete vocabulary `["a"]`: the unknown
character `'z'` encodes to id 3, the out-of-range id 9 decodes to
`"<UNK>"`, and an unk id inside pad/sos/eos ids survives a skipping
decode. -/
theorem C4_unknown_handling_witness :
    ((Tokenizer.ofVocab "de" "spelling" defaultSpecialTokens ["a"]).encode
        "z" false)[0]? = some 3 ∧
    (Tokenizer.ofVocab "de" "spelling" defaultSpecialTokens ["a"]).decode
        [9] false = "<UNK>" ∧
    (Tokenizer.ofVocab "de" "spelling" defaultSpecialTokens ["a"]).decode
        ([0, 1] ++ 3 :: [2]) true =
      (Tokenizer.ofVocab "de" "spelling" defaultSpecialTokens ["a"]).decode
        [0, 1] true ++ "<UNK>" ++
      (Tokenizer.ofVocab "de" "spelling" defaultSpecialTokens ["a"]).decode
        [2] true := by
  have h := C4_unknown_handling "de" "spelling" ["a"] (by decide)
  exact ⟨h.2.1 "z" 0 'z' (by decide) (by decide),
    h.2.2.1 9 (by decide), h.2.2.2.2 [0, 1] [2]⟩

/-! ## Lemmas about the vocabulary builder -/

theorem mem_foldl_chars (texts : List String) (acc : List Char) (c : Char) :
    c ∈ texts.foldl (fun acc t => if t = "" then acc else acc ++ t.data)
        acc ↔
      c ∈ acc ∨ ∃ t ∈ texts, c ∈ t.data := by
  induction texts generalizing acc with
  | nil => simp
  | cons t ts ih =>
    rw [List.foldl_cons, ih]
    by_cases ht : t = ""
    · subst ht
      simp
    · simp only [if_neg ht, List.mem_append, List.mem_cons]
      constructor
      · rintro (⟨h | h⟩ | ⟨u, hu, hc⟩)
        · exact Or.inl h
        · exact Or.inr ⟨t, Or.inl rfl, h⟩
        · exact Or.inr ⟨u, Or.inr hu, hc⟩
      · rintro (h | ⟨u, (rfl | hu), hc⟩)
        · exact Or.inl (Or.inl h)
        · exact Or.inl (Or.inr hc)
        · exact Or.inr ⟨u, hu, hc⟩

theorem mem_charsOfTexts (texts : List String) (c : Char) :
    c ∈ charsOfTexts texts ↔ ∃ t ∈ texts, c ∈ t.data := by
  rw [charsOfTexts, List.mem_dedup, mem_foldl_chars]
  simp

theorem nodup_charsOfTexts (texts : List String) :
    (charsOfTexts texts).Nodup := List.nodup_dedup _

/-- C8: the vocabulary builder produces the set of distinct code points of
the input strings with no duplicates, sorted by code point ascending; the
output is a function of the input set only; and `["ab", "ba"]` builds
exactly `['a', 'b']` in either input order. -/
theorem C8_vocab_sorted_deterministic :
    (∀ texts : List String, (vocabOfTexts texts).Sorted (· < ·)) ∧
    (∀ (texts : List String) (c : Char),
      c ∈ vocabOfTexts texts ↔ ∃ t ∈ texts, c ∈ t.data) ∧
    (∀ A B : List String, (∀ t, t ∈ A ↔ t ∈ B) →
      vocabOfTexts A = vocabOfTexts B) ∧
    vocabOfTexts ["ab", "ba"] = ['a', 'b'] ∧
    vocabOfTexts ["ba", "ab"] = ['a', 'b'] := by
  refine ⟨?_, ?_, ?_, by decide, by decide⟩
  · intro texts
    have hs : (vocabOfTexts texts).Sorted (· ≤ ·) :=
      List.sorted_insertionSort _ _
    have hn : (vocabOfTexts texts).Nodup :=
      ((List.perm_insertionSort _ _).nodup_iff).mpr
        (nodup_charsOfTexts texts)
    exact hs.lt_of_le hn
  · intro texts c
    rw [vocabOfTexts, sortedVocab, List.mem_insertionSort,
      mem_charsOfTexts]
  · intro A B h
    have hmem : ∀ c, c ∈ charsOfTexts A ↔ c ∈ charsOfTexts B := by
      intro c
      rw [mem_charsOfTexts, mem_charsOfTexts]
      constructor
      · rintro ⟨t, ht, hc⟩
        exact ⟨t, (h t).mp ht, hc⟩
      · rintro ⟨t, ht, hc⟩
        exact ⟨t, (h t).mpr ht, hc⟩
    have hperm : List.Perm (charsOfTexts A) (charsOfTexts B) :=
      (List.perm_ext_iff_of_nodup (nodup_charsOfTexts A)
        (nodup_charsOfTexts B)).mpr hmem
    have hpermSorted : List.Perm (vocabOfTexts A) (vocabOfTexts B) :=
      ((List.perm_insertionSort _ _).trans hperm).trans
        (List.perm_insertionSort _ _).symm
    exact List.eq_of_perm_of_sorted hpermSorted
      (List.sorted_insertionSort _ _) (List.sorted_insertionSort _ _)

/-- Witness for C8: the two orderings of `{"ab", "ba"}` build the same
vocabulary. -/
theorem C8_vocab_sorted_deterministic_witness :
    vocabOfTexts ["ab", "ba"] = vocabOfTexts ["ba", "ab"] :=
  C8_vocab_sorted_deterministic.2.2.1 ["ab", "ba"] ["ba", "ab"]
    (fun t => by constructor <;> (intro h; simp only [List.mem_cons] at h ⊢; tauto))

/-- C9: rebuilding from a second source fully replaces the previously
built vocabulary: the result equals what a fresh builder produces from the
second source alone, for both `build_from_text_list` and
`build_from_data`, in any combination. -/
theorem C9_rebuild_replaces (b : TokenizerBuilder) (A B : List String)
    (colA colB : List (Option String)) (lang mod : String)
    (f : TokenizerBuilder) (hf : mkTokenizerBuilder lang mod = .ok f) :
    ((b.buildFromTextList A).buildFromTextList B).vocab =
      (f.buildFromTextList B).vocab ∧
    ((b.buildFromData colA).buildFromData colB).vocab =
      (f.buildFromData colB).vocab ∧
    ((b.buildFromData colA).buildFromTextList B).vocab =
      (f.buildFromTextList B).vocab ∧
    ((b.buildFromTextList A).buildFromData colB).vocab =
      (f.buildFromData colB).vocab :=
  ⟨rfl, rfl, rfl, rfl⟩

/-- Witness for C9 at a concrete dirty builder and fresh builder. -/
theorem C9_rebuild_replaces_witness :
    mkTokenizerBuilder "de" "spelling" =
      .ok (⟨"de", "spelling", []⟩ : TokenizerBuilder) ∧
    (((⟨"fr", "ipa", ['q']⟩ : TokenizerBuilder).buildFromTextList
        ["a"]).buildFromTextList ["b"]).vocab =
      ((⟨"de", "spelling", []⟩ : TokenizerBuilder).buildFromTextList
        ["b"]).vocab :=
  ⟨rfl, (C9_rebuild_replaces ⟨"fr", "ipa", ['q']⟩ ["a"] ["b"] [] []
    "de" "spelling" ⟨"de", "spelling", []⟩ rfl).1⟩

/-! ## Lemmas about the line parser and loader -/

/-- Every record emitted by the per-line parser carries the language it
was called with. -/
theorem parseLine_language {lang raw : String} {r : Record}
    (h : parseLine lang raw = some r) : r.language = lang := by
  simp only [parseLine] at h
  split at h
  · cases h
  · split at h
    · split at h
      · cases h
      · cases h
        rfl
    · cases h

/-- A successful directory-mode load returns exactly the per-file
aggregated rows. -/
theorem loadData_dir_ok {o : Option String}
    {files : List (String × List String)} {rows : List Record}
    (h : loadData o (.dir files) = .ok rows) :
    rows = files.flatMap (fun fl => fileRows o fl.1 fl.2) := by
  simp only [loadData] at h
  split at h
  · cases h
  · split at h
    · cases h
    · cases h
      rfl

/-- C3 counterexample: the line `"x\t/a/, / /"` has exactly one tab and
two slash-delimited spans, yet the parser produces no record at all
(the last span strips to the empty string), refuting the claim that every
such line yields exactly one record. -/
theorem C3_counterexample :
    splitTab (trimChars ("x\t/a/, / /" : String).data) =
      [("x" : String).data, ("/a/, / /" : String).data] ∧
    findallSlash (trimChars ("/a/, / /" : String).data) ≠ [] ∧
    parseLine "de" "x\t/a/, / /" = none :=
  ⟨by decide, by decide, by decide⟩

/-- C3 (amended): for every line with exactly one tab and at least one
slash-delimited span whose LAST span does not strip to the empty string,
the parser produces exactly one record whose pronunciation is that last
span, stripped; in particular `"x\t/a/, /b/, /c/"` yields one record with
pronunciation `"c"`. -/
theorem C3_last_alternate :
    (∀ (lang line : String) (w p m : List Char),
      splitTab (trimChars line.data) = [w, p] →
      (findallSlash (trimChars p)).getLast? = some m →
      trimChars m ≠ [] →
      parseLine lang line =
        some ⟨String.mk (trimChars w), String.mk (trimChars m), lang⟩) ∧
    parseLine "de" "x\t/a/, /b/, /c/" = some ⟨"x", "c", "de"⟩ := by
  constructor
  · intro lang line w p m hsp hlast hne
    have hemp : (trimChars line.data).isEmpty = false := by
      cases hempty : trimChars line.data with
      | nil => rw [hempty] at hsp; simp [splitTab] at hsp
      | cons a l => rfl
    have hipa : parseIpaPronunciations p = trimChars m := by
      simp [parseIpaPronunciations, hlast]
    have hne' : (trimChars m).isEmpty = false := by
      cases htm : trimChars m with
      | nil => exact absurd htm hne
      | cons a l => rfl
    simp [parseLine, hemp, hsp, hipa, hne']
  · decide

/-- Witness for C3 (amended) at the line `"x\t/a/, /b/, /c/"`. -/
theorem C3_last_alternate_witness :
    parseLine "fr" "x\t/a/, /b/, /c/" =
      some ⟨String.mk (trimChars ("x" : String).data),
        String.mk (trimChars ("c" : String).data), "fr"⟩ :=
  C3_last_alternate.1 "fr" "x\t/a/, /b/, /c/" ("x" : String).data
    ("/a/, /b/, /c/" : String).data ("c" : String).data
    (by decide) (by decide) (by decide)

/-- C5: a load fails exactly when the path is missing, the directory holds
zero matching files, or parsing yields zero usable records overall; a
malformed line (skipped by the per-line parser) contributes nothing and
never aborts the surrounding load, which continues with the remaining
lines. -/
theorem C5_load_failure_iff :
    (∀ (o : Option String) (src : Source),
      (∃ e, loadData o src = .error e) ↔
        (src = .missing ∨ src = .dir [] ∨ usableRows o src = [])) ∧
    (∀ (o : Option String) (stem line : String) (rest : List String),
      parseLine (extractLanguageCode o stem) line = none →
      fileRows o stem (line :: rest) = fileRows o stem rest) ∧
    (∀ (lang line : String), (splitTab (trimChars line.data)).length ≠ 2 →
      parseLine lang line = none) ∧
    (∀ (lang line : String) (w p : List Char),
      splitTab (trimChars line.data) = [w, p] →
      findallSlash (trimChars p) = [] → parseLine lang line = none) := by
  refine ⟨?_, ?_, ?_, ?_⟩
  · intro o src
    cases src with
    | missing => simp [loadData, usableRows]
    | file stem lines =>
      simp only [loadData, usableRows]
      by_cases hrows : (fileRows o stem lines).isEmpty
      · rw [List.isEmpty_iff] at hrows
        simp [hrows]
      · rw [List.isEmpty_iff] at hrows
        simp [hrows]
    | dir files =>
      simp only [loadData, usableRows]
      by_cases hfiles : files.isEmpty
      · rw [List.isEmpty_iff] at hfiles
        subst hfiles
        simp
      · have hfiles' : ¬ files = [] := by
          rwa [List.isEmpty_iff] at hfiles
        rw [if_neg hfiles]
        by_cases hrows :
            (files.flatMap (fun fl => fileRows o fl.1 fl.2)).isEmpty
        · rw [List.isEmpty_iff] at hrows
          simp [hrows, hfiles']
        · rw [List.isEmpty_iff] at hrows
          simp [hrows, hfiles']
  · intro o stem line rest h
    simp [fileRows, List.filterMap_cons, h]
  · intro lang line hlen
    simp only [parseLine]
    split
    · rfl
    · split
      · rename_i w p hsp
        rw [hsp] at hlen
        simp at hlen
      · rfl
  · intro lang line w p hsp hfind
    have hipa : parseIpaPronunciations p = [] := by
      simp [parseIpaPronunciations, hfind]
    simp [parseLine, hsp, hipa]

/-- Witness for C5: a tabless line contributes no record while the rest of
the file is still parsed. -/
theorem C5_load_failure_iff_witness :
    parseLine (extractLanguageCode none "de") "bad line" = none ∧
    fileRows none "de" ["bad line", "x\t/a/"] =
      fileRows none "de" ["x\t/a/"] :=
  ⟨by decide,
    C5_load_failure_iff.2.1 none "de" "bad line" ["x\t/a/"] (by decide)⟩

/-- C6 counterexample: a persisted structure with NO `special_tokens`
object at all (and a present `vocab`) does not fail — construction
succeeds with the default special tokens, refuting the claim that a
missing `special_tokens` object is a malformed-vocabulary error. -/
theorem C6_counterexample :
    loadTokenizer (some ⟨none, none, some ["a"], none⟩) =
      .ok (Tokenizer.ofVocab "unknown" "unknown" defaultSpecialTokens
        ["a"]) := rfl

/-- C6 (amended): construction fails with the missing-file error when the
source is absent; succeeds iff `vocab` is present and `special_tokens` is
either entirely absent (defaults are silently substituted) or present with
all four entries; a present-but-incomplete `special_tokens` object fails
with a key error naming the first missing entry (pad, sos, eos, unk in
that order), and a missing `vocab` fails with the `vocab` key error. -/
theorem C6_construction_errors :
    loadTokenizer none = .error .fileNotFound ∧
    (∀ cfg : TokenizerConfig,
      (∃ t, loadTokenizer (some cfg) = .ok t) ↔
        (cfg.vocab ≠ none ∧
          (cfg.special_tokens = none ∨
            ∃ st, cfg.special_tokens = some st ∧ st.pad ≠ none ∧
              st.sos ≠ none ∧ st.eos ≠ none ∧ st.unk ≠ none))) ∧
    (∀ (cfg : TokenizerConfig) (vs : List String),
      cfg.special_tokens = none → cfg.vocab = some vs →
      loadTokenizer (some cfg) = .ok (Tokenizer.ofVocab
        (cfg.language.getD "unknown") (cfg.modality.getD "unknown")
        defaultSpecialTokens vs)) ∧
    (∀ (cfg : TokenizerConfig) (st : SpecialTokensOpt),
      cfg.special_tokens = some st →
      (st.pad = none →
        loadTokenizer (some cfg) = .error (.keyError "pad")) ∧
      (st.pad ≠ none → st.sos = none →
        loadTokenizer (some cfg) = .error (.keyError "sos")) ∧
      (st.pad ≠ none → st.sos ≠ none → st.eos = none →
        loadTokenizer (some cfg) = .error (.keyError "eos")) ∧
      (st.pad ≠ none → st.sos ≠ none → st.eos ≠ none → st.unk = none →
        loadTokenizer (some cfg) = .error (.keyError "unk"))) ∧
    (∀ cfg : TokenizerConfig, cfg.vocab = none →
      (cfg.special_tokens = none ∨
        ∃ st, cfg.special_tokens = some st ∧ st.pad ≠ none ∧
          st.sos ≠ none ∧ st.eos ≠ none ∧ st.unk ≠ none) →
      loadTokenizer (some cfg) = .error (.keyError "vocab")) := by
  refine ⟨rfl, ?_, ?_, ?_, ?_⟩
  · rintro ⟨lg, md, vb, st⟩
    cases st with
    | none =>
      cases vb with
      | none => simp [loadTokenizer]
      | some vs => simp [loadTokenizer]
    | some stv =>
      obtain ⟨sp, ss, se, su⟩ := stv
      cases sp <;> cases ss <;> cases se <;> cases su <;> cases vb <;>
        simp [loadTokenizer]
  · rintro ⟨lg, md, vb, st⟩ vs hst hvb
    simp only at hst hvb
    subst hst
    subst hvb
    rfl
  · rintro ⟨lg, md, vb, st⟩ stv hst
    simp only at hst
    subst hst
    obtain ⟨sp, ss, se, su⟩ := stv
    cases sp <;> cases ss <;> cases se <;> cases su <;>
      refine ⟨?_, ?_, ?_, ?_⟩ <;> simp [loadTokenizer]
  · rintro ⟨lg, md, vb, st⟩ hvb hok
    simp only at hvb
    subst hvb
    cases st with
    | none => rfl
    | some stv =>
      obtain ⟨sp, ss, se, su⟩ := stv
      rcases hok with h | ⟨st2, hst2, hp, hs2, he, hu⟩
      · cases h
      · simp only [Option.some.injEq] at hst2
        subst hst2
        cases sp with
        | none => exact absurd rfl hp
        | some p =>
          cases ss with
          | none => exact absurd rfl hs2
          | some s2 =>
            cases se with
            | none => exact absurd rfl he
            | some e =>
              cases su with
              | none => exact absurd rfl hu
              | some u => rfl

/-- Witness for C6 (amended): a config with `special_tokens` absent and
`vocab` present loads successfully with the defaults. -/
theorem C6_construction_errors_witness :
    (⟨some "de", some "ipa", some ["a"], none⟩ :
        TokenizerConfig).special_tokens = none ∧
    (⟨some "de", some "ipa", some ["a"], none⟩ :
        TokenizerConfig).vocab = some ["a"] ∧
    loadTokenizer (some ⟨some "de", some "ipa", some ["a"], none⟩) =
      .ok (Tokenizer.ofVocab "de" "ipa" defaultSpecialTokens ["a"]) :=
  ⟨rfl, rfl,
    C6_construction_errors.2.2.1 ⟨some "de", some "ipa", some ["a"], none⟩
      ["a"] rfl rfl⟩

/-- C7 counterexample: in directory mode a supplied language-code override
IS applied — the file with stem `"de"` yields records tagged `"xx"` when
the override `"xx"` is given, and `"de"` only when no override is given —
refuting the claim that the override has no effect in directory mode. -/
theorem C7_counterexample :
    loadData (some "xx") (.dir [("de", ["hello\t/h/"])]) =
      .ok [⟨"hello", "h", "xx"⟩] ∧
    loadData none (.dir [("de", ["hello\t/h/"])]) =
      .ok [⟨"hello", "h", "de"⟩] ∧
    ("xx" : String) ≠ "de" :=
  ⟨rfl, rfl, by decide⟩

/-- C7 (amended): the explicit language-code override applies in every
mode, directory mode included: with a non-empty override every loaded
record is tagged with the override; the per-file stem is used only when
the override is absent (or empty, Python truthiness). -/
theorem C7_language_override :
    (∀ (code stem : String), code ≠ "" →
      extractLanguageCode (some code) stem = code) ∧
    (∀ stem : String, extractLanguageCode none stem = stem) ∧
    (∀ stem : String, extractLanguageCode (some "") stem = stem) ∧
    (∀ (code : String) (files : List (String × List String))
        (rows : List Record), code ≠ "" →
      loadData (some code) (.dir files) = .ok rows →
      ∀ r ∈ rows, r.language = code) ∧
    (∀ (files : List (String × List String)) (rows : List Record),
      loadData none (.dir files) = .ok rows →
      ∀ r ∈ rows, ∃ fl ∈ files, r.language = fl.1) := by
  refine ⟨?_, ?_, ?_, ?_, ?_⟩
  · intro code stem hcode
    simp [extractLanguageCode, hcode]
  · intro stem
    rfl
  · intro stem
    rfl
  · intro code files rows hcode hload r hr
    rw [loadData_dir_ok hload] at hr
    obtain ⟨fl, hfl, hrfl⟩ := List.mem_flatMap.mp hr
    obtain ⟨line, hline, hp⟩ := List.mem_filterMap.mp hrfl
    have := parseLine_language hp
    rwa [extractLanguageCode, if_neg hcode] at this
  · intro files rows hload r hr
    rw [loadData_dir_ok hload] at hr
    obtain ⟨fl, hfl, hrfl⟩ := List.mem_flatMap.mp hr
    obtain ⟨line, hline, hp⟩ := List.mem_filterMap.mp hrfl
    exact ⟨fl, hfl, parseLine_language hp⟩

/-- Witness for C7 (amended): with override `"xx"`, the one record loaded
from the file with stem `"de"` is tagged `"xx"`. -/
theorem C7_language_override_witness :
    ("xx" : String) ≠ "" ∧
    (⟨"hello", "h", "xx"⟩ : Record).language = "xx" :=
  ⟨by decide,
    C7_language_override.2.2.2.1 "xx" [("de", ["hello\t/h/"])]
      [⟨"hello", "h", "xx"⟩] (by decide) rfl
      ⟨"hello", "h", "xx"⟩ (by decide)⟩

/-- C10: the stored pronunciation is the last slash-delimited span with
surrounding whitespace stripped (`"/ a /"` yields `"a"`), and a line whose
last span consists only of whitespace yields no record at all, even when
earlier spans are non-empty. -/
theorem C10_last_span_stripped :
    (∀ (ipa : List Char) (m : List Char),
      (findallSlash (trimChars ipa)).getLast? = some m →
      parseIpaPronunciations ipa = trimChars m) ∧
    parseIpaPronunciations ("/ a /" : String).data =
      ("a" : String).data ∧
    (∀ (lang line : String) (w p m : List Char),
      splitTab (trimChars line.data) = [w, p] →
      (findallSlash (trimChars p)).getLast? = some m →
      trimChars m = [] →
      parseLine lang line = none) ∧
    parseLine "de" "x\t/ab/, /  /" = none := by
  refine ⟨?_, by decide, ?_, by decide⟩
  · intro ipa m hlast
    simp [parseIpaPronunciations, hlast]
  · intro lang line w p m hsp hlast hm
    have hipa : parseIpaPronunciations p = [] := by
      simp [parseIpaPronunciations, hlast, hm]
    simp [parseLine, hsp, hipa]

/-- Witness for C10 at the line `"x\t/ab/, /  /"`, whose last span is two
spaces. -/
theorem C10_last_span_stripped_witness :
    parseLine "fr" "x\t/ab/, /  /" = none :=
  C10_last_span_stripped.2.2.1 "fr" "x\t/ab/, /  /"
    ("x" : String).data ("/ab/, /  /" : String).data
    ("  " : String).data (by decide) (by decide) (by decide)

end Speller
